import Mathlib

/-!
Shallow embedding of the Brick-Station 6502-style emulator core.

Source files embedded:
- `src/hardware/ram.rs`   — the `Ram` device (flat 64 KiB store, claims every address)
- `src/hardware/bus.rs`   — the `Bus`: device list, read/write routing,
  `add_device` / `remove_device` / `load_program`, and `Bus::tick`
  (the fetch-decode-execute cycle accounting)
- `src/debugger/debugger.rs` — the session controller: program-image parsing
  (`load_program_from_file`), the step handler (KeyCode::Right), the rollback
  handler (KeyCode::Left), and `Clone for State` (snapshotting)

Machine integers are modelled as `Nat` with explicit `% 2^w` where the source
wraps; `u16` addresses are `Nat` values below 65536; fallible code (Rust
`unwrap`, out-of-range indexing) returns `Option`.

The repository's `cpu.rs`, `registers.rs`, `interfaces.rs`, `device.rs` and
`disassembler.rs` are not available; where a claim needs their contents
(register field widths, the addressing-mode/operation handler signatures, the
disassembly address map, `Bus::clone_state`) those parts are modelled from the
spec and marked `Modelled from the spec:` on the definition.
-/

/-! ### Device interface and RAM (`src/hardware/interfaces.rs`, `src/hardware/ram.rs`) -/

/-- Modelled from the spec: the `DeviceOps` trait of the missing
`interfaces.rs` — "contract every addressable peripheral implements: is this
address mine, byte read, byte write".  A device of state type `δ` supplies the
three operations; `write` returns the updated device state. -/
structure DeviceOps (δ : Type) where
  within_range : δ → Nat → Bool
  read : δ → Nat → Nat
  write : δ → Nat → Nat → δ

/-- `Ram` from `ram.rs`: `data : [u8; 0xFFFF + 1]`, modelled as a function
from addresses to stored bytes. -/
structure Ram where
  data : Nat → Nat

/-- `Ram::new()`: all cells zero. -/
def Ram.new : Ram := ⟨fun _ => 0⟩

/-- The `DeviceOps for Ram` impl from `ram.rs`: claims every address
(`within_range` returns `true` unconditionally), direct array read, direct
array write. -/
def ramOps : DeviceOps Ram where
  within_range _ _ := true
  read r addr := r.data addr
  write r addr value := ⟨fun a => if a = addr then value else r.data a⟩

/-! ### Bus device list and routing (`src/hardware/bus.rs`) -/

/-- The `Bus` struct from `bus.rs`: an optional processor reference and an
ordered device list.  The processor reference is abstracted to type `π`
(its contents are in the missing `cpu.rs`); devices have state type `δ`. -/
structure Bus (π δ : Type) where
  processor : Option π
  devices : List δ

/-- `Bus::new()`. -/
def Bus.new (π δ : Type) : Bus π δ := ⟨none, []⟩

/-- `Bus::load_program` from `bus.rs` lines 18–20: the body is empty, so the
bus is returned unchanged. -/
def Bus.load_program (b : Bus π δ) (_program : List Nat) : Bus π δ := b

/-- `Bus::add_device`: pushes the device and returns `self.devices.len()`
(the length after the push). -/
def Bus.add_device (b : Bus π δ) (device : δ) : Bus π δ × Nat :=
  let devs := b.devices ++ [device]
  ({ b with devices := devs }, devs.length)

/-- `Bus::remove_device`: out-of-range handles (`at >= self.devices.len()`)
are ignored; otherwise `Vec::remove(at)` deletes the element at index `at`. -/
def Bus.remove_device (b : Bus π δ) (at_ : Nat) : Bus π δ :=
  if b.devices.length ≤ at_ then b
  else { b with devices := b.devices.eraseIdx at_ }

/-- Bus read routing, `impl Device for Bus` in `bus.rs`: filter the devices
claiming the address, read through each, take the first (`nth(0)`); the
`unwrap` on an empty selection is modelled by `Option`. -/
def busRead (ops : DeviceOps δ) (devices : List δ) (addr : Nat) : Option Nat :=
  ((devices.filter (fun device => ops.within_range device addr)).map
    (fun device => ops.read device addr)).head?

/-- Bus write routing, `impl Device for Bus` in `bus.rs`: every device whose
`within_range` accepts the address receives the write; the rest are left
untouched. -/
def busWrite (ops : DeviceOps δ) (devices : List δ) (addr value : Nat) : List δ :=
  devices.map (fun device =>
    if ops.within_range device addr then ops.write device addr value else device)

/-! ### Processor state and `Bus::tick` (`src/hardware/bus.rs` lines 38–54) -/

/-- Modelled from the spec: the register file of the missing `registers.rs` —
"accumulator (A, 8-bit), index registers X and Y (8-bit), program counter
(PC, 16-bit), stack pointer (SP, 8-bit), status flags (8 boolean bits)";
the status byte is kept packed as in the display code of `debugger.rs`. -/
structure Registers where
  a : Nat
  x : Nat
  y : Nat
  pc : Nat
  sp : Nat
  status : Nat

/-- Spec invariant on the register file: "all fields wrap modulo their bit
width; no field is ever observed out of range". -/
def RegsInRange (r : Registers) : Prop :=
  r.a < 256 ∧ r.x < 256 ∧ r.y < 256 ∧ r.pc < 65536 ∧ r.sp < 256 ∧ r.status < 256

instance (r : Registers) : Decidable (RegsInRange r) := by
  unfold RegsInRange; infer_instance

/-- Modelled from the spec: the state an addressing-mode resolver or operation
handler of the missing `cpu.rs` may touch — "pure functions that consume the
processor's registers and bus (for operand-byte fetches ... which also cost PC
advancement)" and operations that "read/write registers and/or bus bytes,
update flags".  `mem` is the byte-addressed view the processor has through the
bus; neither kind of handler touches the cycle counter or the latched
opcode. -/
structure HandlerState where
  registers : Registers
  mem : Nat → Nat

/-- An entry of `instruction_set` (the `HashMap` catalog of the missing
`cpu.rs`): base cycle count, the addressing-mode resolver, and the operation.
Each handler transforms the handler-visible state and reports its extra-cycle
signal, exactly the two booleans combined in `Bus::tick`. -/
structure Instruction where
  cycles : Nat
  address_mode : HandlerState → HandlerState × Bool
  operation : HandlerState → HandlerState × Bool

/-- The processor as reachable from `Bus::tick`: the register file, the
in-flight cycle counter (`cycle: i32` in `cpu.rs`, hence `Int`), the latched
opcode, the instruction catalog, and the memory seen through the bus
(`self_processor.read` of the missing `cpu.rs`, which the spec routes through
the bus).  `Bus::tick` unwraps `self.processor`, so this structure models a
bus with a processor attached. -/
structure Machine where
  registers : Registers
  cycle : Int
  opcode : Nat
  instruction_set : Nat → Option Instruction
  mem : Nat → Nat

/-- The PC advance of the opcode fetch in `Bus::tick` line 42
(`self_processor.registers.pc += 1`), wrapping at the 16-bit width per the
spec invariant on register fields. -/
def fetchAdvance (r : Registers) : Registers :=
  { r with pc := (r.pc + 1) % 65536 }

/-- `Bus::tick` (`bus.rs` lines 38–54).  When `cycle == 0`: read the byte at
PC (taken `as u16`) as the opcode, advance PC, look the opcode up in the
catalog (`unwrap` modelled by `Option`), set `cycle` to the entry's base
count, run the addressing-mode resolver then the operation, and add one cycle
exactly when both extra-cycle signals are true.  Every call then decrements
`cycle` by one. -/
def Bus.tick (m : Machine) : Option Machine :=
  if m.cycle = 0 then
    let opcode := m.mem (m.registers.pc % 65536)
    let regs1 := fetchAdvance m.registers
    match m.instruction_set opcode with
    | none => none
    | some instruction_data =>
      let cycle1 : Int := instruction_data.cycles
      let (st1, additional_cycles1) := instruction_data.address_mode ⟨regs1, m.mem⟩
      let (st2, additional_cycles2) := instruction_data.operation st1
      let cycle2 := cycle1 + (if additional_cycles1 && additional_cycles2 then 1 else 0)
      some { m with
        registers := st2.registers
        mem := st2.mem
        opcode := opcode
        cycle := cycle2 - 1 }
  else
    some { m with cycle := m.cycle - 1 }

/-! ### Debugger session state (`src/debugger/debugger.rs`) -/

/-- Modelled from the spec: the disassembly unit of the missing
`disassembler.rs` — an "ordered sequence of formatted instruction lines plus a
mapping from a byte-stream position ... to the index of the line that starts
there".  `counters` is the `HashMap<i32, usize>` address map consulted by the
step handler (`dis.counters.contains_key`), modelled as a partial map. -/
structure Disassembler where
  program : List String
  counters : Nat → Option Nat

/-- The debugger `State` of `debugger.rs`: the machine (bus with its attached
processor) together with the current disassembly.  Deep copies are value
copies in this embedding, matching `Clone for State` / `Bus::clone_state`
which the spec requires to produce "an independently owned copy". -/
structure DState where
  machine : Machine
  dis : Disassembler

/-- The `App` of `debugger.rs`: the memory-page index of the UI, the snapshot
history stack (`previous_machine_state : Vec<State>`, most recent last) and
the live machine state. -/
structure App where
  memory_page_index : Int
  previous_machine_state : List DState
  inner_machine_state : DState

/-- The gate of the step handler (`KeyCode::Right`, `debugger.rs` lines
386–389): the current PC is a key of the disassembly's address map. -/
def proceedGate (app : App) : Bool :=
  (app.inner_machine_state.dis.counters app.inner_machine_state.machine.registers.pc).isSome

/-- The step handler (`KeyCode::Right | KeyCode::Tab`, `debugger.rs` lines
377–395): deep-copy the current state, and only when the PC is a recognized
instruction-start address push that copy onto the history and tick the
processor once.  A tick panic (absent catalog entry) is `none`. -/
def stepHandler (app : App) : Option App :=
  let previous_state := app.inner_machine_state
  if proceedGate app then
    (Bus.tick app.inner_machine_state.machine).map (fun m =>
      { app with
        previous_machine_state := app.previous_machine_state ++ [previous_state]
        inner_machine_state := { app.inner_machine_state with machine := m } })
  else
    some app

/-- The rollback handler (`KeyCode::Left | KeyCode::Backspace`, `debugger.rs`
lines 396–403): pop the most recent snapshot (`Vec::pop` takes the last
element) and make a fresh deep copy of it the live state; on an empty history
nothing happens.  The boolean is the spec's `rollback() -> bool` result:
whether a snapshot was restored. -/
def rollbackHandler (app : App) : App × Bool :=
  match app.previous_machine_state.getLast? with
  | some previous_state =>
      ({ app with
          previous_machine_state := app.previous_machine_state.dropLast
          inner_machine_state := previous_state }, true)
  | none => (app, false)

/-- `n` step-handler invocations in sequence. -/
def stepN : Nat → App → Option App
  | 0, app => some app
  | n + 1, app => (stepHandler app).bind (stepN n)

/-- `n` rollback-handler invocations in sequence. -/
def rollbackN : Nat → App → App
  | 0, app => app
  | n + 1, app => rollbackN n (rollbackHandler app).1

/-- Along `n` step-handler invocations, every step's gate is open (the PC is a
recognized instruction-start address) and every tick finds its opcode in the
catalog. -/
def proceedsN : Nat → App → Bool
  | 0, _ => true
  | n + 1, app =>
      proceedGate app &&
        match stepHandler app with
        | some app1 => proceedsN n app1
        | none => false

/-! ### Reference graph of the snapshot/restore path (`debugger.rs` lines
396–403 and 440–449) -/

/-- The `Rc<RefCell<...>>` reference graph of one debugger `State`: each cell
is named by an allocation identifier, and the two back-references record which
cell the processor's `bus` field and the bus's `processor` field currently
resolve to. -/
structure RefGraph where
  cpuId : Nat
  busId : Nat
  cpuBusRef : Option Nat
  busProcRef : Option Nat

/-- `Clone for State` (`debugger.rs` lines 440–449) on the reference graph:
two fresh cells are allocated (`Rc::new(RefCell::new(...))` for the processor
copy, and the bus copy produced by `clone_state`).  The cloned processor's
`bus` field still aliases whatever the original processor's `bus` field
pointed at (cloning an `Rc` clones the pointer).  Modelled from the spec:
`Bus::clone_state` is not under `src/`; per the spec a snapshot deep-copy
"must reference each other consistently post-restore", so the copied bus's
processor back-reference is rewired to the copied processor. -/
def cloneStateRefs (s : RefGraph) (fresh : Nat) : RefGraph :=
  { cpuId := fresh
    busId := fresh + 1
    cpuBusRef := s.cpuBusRef
    busProcRef := some fresh }

/-- The restore path of the rollback handler (`KeyCode::Left`, `debugger.rs`
lines 397–401): clone the popped snapshot into fresh cells, then set the
restored processor's `bus` field to the restored state's bus
(`(*cpu_ref_local).borrow_mut().bus = Some(bus.clone())`). -/
def restoreSnapshotRefs (snapshot : RefGraph) (fresh : Nat) : RefGraph :=
  let copy := cloneStateRefs snapshot fresh
  { copy with cpuBusRef := some copy.busId }

/-! ### Program-image parsing (`State::load_program_from_file`,
`debugger.rs` lines 84–111) -/

/-- Value of one hexadecimal digit character, `none` for a non-digit
(the per-character step of Rust's `u8::from_str_radix(_, 16)`). -/
def hexDigitVal (c : Char) : Option Nat :=
  if '0' ≤ c ∧ c ≤ '9' then some (c.toNat - '0'.toNat)
  else if 'a' ≤ c ∧ c ≤ 'f' then some (c.toNat - 'a'.toNat + 10)
  else if 'A' ≤ c ∧ c ≤ 'F' then some (c.toNat - 'A'.toNat + 10)
  else none

/-- Accumulate base-16 digits left to right; `none` on the first non-digit. -/
def hexDigitsVal : List Nat → List Char → Option Nat
  | acc, [] => some (acc.foldl (fun n d => n * 16 + d) 0)
  | acc, c :: rest =>
      match hexDigitVal c with
      | some d => hexDigitsVal (acc ++ [d]) rest
      | none => none

/-- Rust `u8::from_str_radix(s, 16)` as called by `parse_file`: an optional
leading `+` (a leading `-` is rejected for an unsigned target), then one or
more hexadecimal digits of either case; the value must fit in a `u8`,
otherwise the checked arithmetic overflows and the parse fails. -/
def fromStrRadix16U8 (s : String) : Option Nat :=
  let core : List Char → Option Nat := fun cs =>
    match cs with
    | [] => none
    | _ => (hexDigitsVal [] cs).bind (fun n => if n ≤ 255 then some n else none)
  match s.toList with
  | '+' :: rest => core rest
  | cs => core cs

/-- Tokenizer worker: emit the pending token (if nonempty, collected in
reverse) at each whitespace boundary and at the end of the line. -/
def splitTokensAux : List Char → List Char → List String
  | [], acc => if acc.isEmpty then [] else [String.mk acc.reverse]
  | c :: rest, acc =>
      if c.isWhitespace then
        (if acc.isEmpty then [] else [String.mk acc.reverse]) ++ splitTokensAux rest []
      else splitTokensAux rest (c :: acc)

/-- Rust `str::split_whitespace`: split at whitespace, discarding empty
pieces. -/
def splitTokens (line : String) : List String :=
  splitTokensAux line.toList []

/-- The inner token loop of `parse_file` (`debugger.rs` lines 100–107): walk
the whitespace-separated tokens of one line, pushing every token that
`u8::from_str_radix(_, 16)` accepts and silently skipping the rest. -/
def parseLineBytes (bytes : List Nat) (line : String) : List Nat :=
  (splitTokens line).foldl (fun acc tok =>
    match fromStrRadix16U8 tok with
    | some byte => acc ++ [byte]
    | none => acc) bytes

/-- The byte-extraction core of `State::load_program_from_file`
(`debugger.rs` lines 89–108), after `reader.lines()` has produced the list of
lines: accumulate the accepted bytes of every line in order. -/
def parse_file (lines : List String) : List Nat :=
  lines.foldl parseLineBytes []

/-- The loading policy in the words of the claim: keep exactly those tokens
that parse as two-hex-digit byte values.  Stated for comparison with
`parse_file`, which embeds the source. -/
def twoHexDigitByte (tok : String) : Option Nat :=
  match tok.toList with
  | [c1, c2] =>
      (hexDigitVal c1).bind (fun d1 => (hexDigitVal c2).map (fun d2 => d1 * 16 + d2))
  | _ => none

/-- All whitespace-separated tokens of a program image, in order of
appearance. -/
def imageTokens (lines : List String) : List String :=
  lines.foldl (fun acc line => acc ++ splitTokens line) []

/-- The claim's reading of the loader: bytes of the two-hex-digit tokens, in
order of appearance. -/
def claimedLoaderBytes (lines : List String) : List Nat :=
  (imageTokens lines).filterMap twoHexDigitByte

/-! ### Theorems -/

lemma head_of_filter_map_eq_find (p : δ → Bool) (f : δ → Nat) (l : List δ) :
    ((l.filter p).map f).head? = (l.find? p).map f := by
  induction l with
  | nil => rfl
  | cons d rest ih =>
      by_cases h : p d
      · simp [List.filter_cons, List.find?_cons, h]
      · simp only [List.filter_cons, List.find?_cons, h]
        simp only [Bool.false_eq_true, if_false, cond_false]
        exact ih

/-- Claim C10: `Bus::load_program` leaves the bus completely unchanged —
the device list, every device's contents, and the processor reference are
identical before and after the call. -/
theorem load_program_frame (b : Bus π δ) (program : List Nat) :
    (b.load_program program).devices = b.devices ∧
    (b.load_program program).processor = b.processor ∧
    b.load_program program = b :=
  ⟨rfl, rfl, rfl⟩

/-- Claim C7 (counterexample): `remove_device` called with the very handle
`add_device` returned does not remove the added device.  On a bus holding one
device `5`, adding device `7` returns handle `2`; removing handle `2` leaves
the device list `[5, 7]`, not the pre-add list `[5]`. -/
theorem add_remove_handle_cex :
    ((Bus.add_device (⟨none, [5]⟩ : Bus Unit Nat) 7).1.remove_device
        (Bus.add_device (⟨none, [5]⟩ : Bus Unit Nat) 7).2).devices = [5, 7] ∧
    ((Bus.add_device (⟨none, [5]⟩ : Bus Unit Nat) 7).1.remove_device
        (Bus.add_device (⟨none, [5]⟩ : Bus Unit Nat) 7).2).devices ≠ [5] := by
  constructor <;> decide

/-- Claim C7 (amended): `add_device` returns the length of the device list
after the push, i.e. the added device's index plus one.  Calling
`remove_device` with that handle is out of range and leaves the bus unchanged;
calling it with handle minus one removes exactly the device just added,
restoring the device list that existed before the `add_device` call. -/
theorem add_remove_handle_amended (b : Bus π δ) (device : δ) :
    (b.add_device device).2 = b.devices.length + 1 ∧
    (b.add_device device).1.remove_device (b.add_device device).2 =
      (b.add_device device).1 ∧
    (b.add_device device).1.remove_device ((b.add_device device).2 - 1) = b := by
  refine ⟨by simp [Bus.add_device], ?_, ?_⟩
  · simp [Bus.add_device, Bus.remove_device]
  · have hlen : ¬ ((b.devices ++ [device]).length ≤ (b.devices ++ [device]).length - 1) := by
      simp
    simp only [Bus.add_device, Bus.remove_device, hlen, if_false]
    have herase : (b.devices ++ [device]).eraseIdx b.devices.length = b.devices := by
      simp [List.eraseIdx_append_of_length_le]
    simp only [List.length_append, List.length_cons, List.length_nil,
      Nat.add_sub_cancel, herase]

/-- Claim C6: writing a byte to an address through the bus and then reading
that address returns exactly the byte written, for any machine whose device
list is a nonempty list of RAM devices (the configuration built by
`initiate_state`); in particular writing `0xAB` to `0x0200` then reading
`0x0200` yields `0xAB`. -/
theorem bus_write_then_read (r : Ram) (rs : List Ram) (addr value : Nat) :
    busRead ramOps (busWrite ramOps (r :: rs) addr value) addr = some value := by
  simp [busRead, busWrite, ramOps, List.filter_cons]

/-- Claim C2: bus routing — a read returns the byte supplied by the first
device, in registration order, whose range-claim predicate accepts the
address (`List.find?` is exactly that first match); a write maps every device
to its written state when its predicate accepts the address and leaves it
untouched otherwise. -/
theorem bus_first_match_read_broadcast_write (ops : DeviceOps δ)
    (devices : List δ) (addr value : Nat) (i : Nat) :
    busRead ops devices addr =
      (devices.find? (fun device => ops.within_range device addr)).map
        (fun device => ops.read device addr) ∧
    (busWrite ops devices addr value)[i]? =
      devices[i]?.map (fun device =>
        if ops.within_range device addr then ops.write device addr value
        else device) := by
  constructor
  · exact head_of_filter_map_eq_find _ _ devices
  · simp [busWrite]

/-- Claim C1: for a machine with a processor attached and a catalog entry for
the fetched opcode, a tick with `cycle == 0` latches the opcode byte read at
PC, advances PC by one, runs the addressing-mode resolver then the operation,
and sets the cycle counter to the entry's base count plus one exactly when
both extra-cycle signals are true, minus the decrement every tick performs; a
tick with `cycle > 0` only decrements the counter and changes nothing else. -/
theorem tick_cycle_accounting (m : Machine) (instruction_data : Instruction)
    (hop : m.instruction_set (m.mem (m.registers.pc % 65536)) = some instruction_data) :
    (m.cycle = 0 →
      Bus.tick m = some { m with
        registers := (instruction_data.operation
          (instruction_data.address_mode ⟨fetchAdvance m.registers, m.mem⟩).1).1.registers
        mem := (instruction_data.operation
          (instruction_data.address_mode ⟨fetchAdvance m.registers, m.mem⟩).1).1.mem
        opcode := m.mem (m.registers.pc % 65536)
        cycle := (instruction_data.cycles : Int) +
          (if (instruction_data.address_mode ⟨fetchAdvance m.registers, m.mem⟩).2 &&
              (instruction_data.operation
                (instruction_data.address_mode ⟨fetchAdvance m.registers, m.mem⟩).1).2
           then 1 else 0) - 1 }) ∧
    (0 < m.cycle → Bus.tick m = some { m with cycle := m.cycle - 1 }) := by
  constructor
  · intro h
    simp only [Bus.tick, h, if_true, hop]
  · intro h
    have hne : ¬ m.cycle = 0 := by omega
    simp only [Bus.tick, hne, if_false]

/-- Concrete machine exercising the fetch branch of `Bus::tick`: cycle
counter at zero, a catalog whose single entry costs two base cycles, and
handlers that both raise their extra-cycle signal. -/
def instrC1 : Instruction := ⟨2, fun s => (s, true), fun s => (s, true)⟩

/-- Machine about to fetch (cycle counter zero). -/
def machineC1 : Machine := ⟨⟨0, 0, 0, 0, 0, 0⟩, 0, 0, fun _ => some instrC1, fun _ => 0⟩

/-- The same machine mid-instruction (cycle counter five). -/
def machineC1b : Machine := { machineC1 with cycle := 5 }

theorem tick_cycle_accounting_witness :
    Bus.tick machineC1 = some { machineC1 with
      registers := ⟨0, 0, 0, 1, 0, 0⟩, opcode := 0, cycle := 2 } ∧
    Bus.tick machineC1b = some { machineC1b with cycle := 4 } :=
  ⟨(tick_cycle_accounting machineC1 instrC1 rfl).1 rfl,
   (tick_cycle_accounting machineC1b instrC1 rfl).2 (by decide)⟩

/-- Claim C9: every register field of an in-range register file stays in
range across the opcode-fetch PC advance of `Bus::tick`, and that advance
yields exactly `PC + 1` modulo `2^16`; in particular starting from
`PC = 0xFFFF` it yields `0`. -/
theorem pc_advance_wraps (r : Registers) (h : RegsInRange r) :
    (fetchAdvance r).pc = (r.pc + 1) % 65536 ∧
    RegsInRange (fetchAdvance r) ∧
    (fetchAdvance { r with pc := 65535 }).pc = 0 := by
  obtain ⟨ha, hx, hy, hpc, hsp, hst⟩ := h
  exact ⟨rfl, ⟨ha, hx, hy, Nat.mod_lt _ (by norm_num), hsp, hst⟩, by simp [fetchAdvance]⟩

theorem pc_advance_wraps_witness :
    (fetchAdvance ⟨0, 0, 0, 65535, 0, 0⟩).pc = 0 ∧
    RegsInRange (fetchAdvance ⟨0, 0, 0, 65535, 0, 0⟩) := by
  have h := pc_advance_wraps ⟨0, 0, 0, 65535, 0, 0⟩ (by decide)
  refine ⟨?_, h.2.1⟩
  rw [h.1]
  decide

/-- Claim C5: when the step handler returns a state, it pushed exactly one
snapshot of the pre-step state onto the end of the history and performed
exactly one tick, and it did so precisely when the current PC is a key of the
disassembly's address map; when the PC is not a recognized instruction-start
address nothing changes. -/
theorem step_snapshot_tick_gated (app app' : App) (h : stepHandler app = some app') :
    (proceedGate app = true →
      app'.previous_machine_state =
        app.previous_machine_state ++ [app.inner_machine_state] ∧
      Bus.tick app.inner_machine_state.machine = some app'.inner_machine_state.machine ∧
      app'.inner_machine_state.dis = app.inner_machine_state.dis ∧
      app'.memory_page_index = app.memory_page_index) ∧
    (proceedGate app = false → app' = app) := by
  constructor
  · intro hgate
    simp only [stepHandler, hgate, if_true] at h
    cases htick : Bus.tick app.inner_machine_state.machine with
    | none => rw [htick] at h; simp at h
    | some m =>
        rw [htick] at h
        simp only [Option.map_some', Option.some.injEq] at h
        subst h
        refine ⟨rfl, ?_, rfl, rfl⟩
        simp [htick]
  · intro hgate
    simp only [stepHandler, hgate, Bool.false_eq_true, if_false,
      Option.some.injEq] at h
    exact h.symm

/-- One step undone: when the gate was open and the step handler produced a
new state, a single rollback pops the snapshot just pushed and restores the
exact pre-step session. -/
lemma rollback_undoes_step (app app' : App) (hgate : proceedGate app = true)
    (h : stepHandler app = some app') :
    rollbackHandler app' = (app, true) := by
  simp only [stepHandler, hgate, if_true] at h
  cases htick : Bus.tick app.inner_machine_state.machine with
  | none => rw [htick] at h; simp at h
  | some m =>
      rw [htick] at h
      simp only [Option.map_some', Option.some.injEq] at h
      subst h
      simp [rollbackHandler, List.getLast?_concat, List.dropLast_concat]

lemma rollbackN_succ_outer (n : Nat) (app : App) :
    rollbackN (n + 1) app = (rollbackHandler (rollbackN n app)).1 := by
  induction n generalizing app with
  | zero => rfl
  | succ n ih =>
      simp only [rollbackN]
      exact ih _

/-- Claim C4: rollback pops the most recent snapshot from the history stack
and restores it — `n` gate-open steps followed by `n` rollbacks restore the
exact pre-step session state — and rollback on an empty history changes
nothing and reports `false`. -/
theorem rollback_stack_discipline (n : Nat) (app app' : App) :
    (app.previous_machine_state = [] → rollbackHandler app = (app, false)) ∧
    (proceedsN n app = true → stepN n app = some app' → rollbackN n app' = app) := by
  constructor
  · intro hempty
    simp [rollbackHandler, hempty]
  · induction n generalizing app with
    | zero =>
        intro _ h
        simp only [stepN, Option.some.injEq] at h
        rw [← h]
        rfl
    | succ n ih =>
        intro hp hs
        simp only [proceedsN, Bool.and_eq_true] at hp
        obtain ⟨hgate, hrest⟩ := hp
        cases hstep : stepHandler app with
        | none => rw [hstep] at hrest; simp at hrest
        | some app1 =>
            rw [hstep] at hrest
            have hrest1 : proceedsN n app1 = true := hrest
            simp only [stepN] at hs
            rw [hstep] at hs
            simp only [Option.some_bind] at hs
            have ih1 := ih app1 hrest1 hs
            rw [rollbackN_succ_outer, ih1, rollback_undoes_step app app1 hgate hstep]

/-- Catalog entry used by the concrete stepping session: one base cycle,
handlers that leave the state alone and raise no extra-cycle signal. -/
def instrC4 : Instruction := ⟨1, fun s => (s, false), fun s => (s, false)⟩

/-- Concrete machine at PC 0, cycle counter 0, zeroed memory. -/
def machineC4 : Machine := ⟨⟨0, 0, 0, 0, 0, 0⟩, 0, 0, fun _ => some instrC4, fun _ => 0⟩

/-- Disassembly whose address map recognizes every address. -/
def disC4 : Disassembler := ⟨[], fun _ => some 0⟩

/-- Concrete session with empty history. -/
def appC4 : App := ⟨0, [], ⟨machineC4, disC4⟩⟩

/-- The same session after two gate-open steps: two snapshots pushed, PC
advanced twice. -/
def appC4' : App :=
  ⟨0, [⟨machineC4, disC4⟩, ⟨{ machineC4 with registers := ⟨0, 0, 0, 1, 0, 0⟩ }, disC4⟩],
    ⟨{ machineC4 with registers := ⟨0, 0, 0, 2, 0, 0⟩ }, disC4⟩⟩

theorem rollback_stack_discipline_witness :
    rollbackHandler appC4 = (appC4, false) ∧ rollbackN 2 appC4' = appC4 :=
  ⟨(rollback_stack_discipline 0 appC4 appC4).1 rfl,
   (rollback_stack_discipline 2 appC4 appC4').2 rfl rfl⟩

/-- Catalog entry for the concrete single-step session of the step-gating
witness. -/
def instrC5 : Instruction := ⟨1, fun s => (s, false), fun s => (s, false)⟩

/-- Concrete machine for the step-gating witness. -/
def machineC5 : Machine := ⟨⟨0, 0, 0, 0, 0, 0⟩, 0, 0, fun _ => some instrC5, fun _ => 0⟩

/-- Address map recognizing every address: the step gate is open. -/
def appC5 : App := ⟨0, [], ⟨machineC5, ⟨[], fun _ => some 0⟩⟩⟩

/-- Result of stepping `appC5` once: one snapshot pushed, PC advanced. -/
def appC5' : App :=
  ⟨0, [⟨machineC5, ⟨[], fun _ => some 0⟩⟩],
    ⟨{ machineC5 with registers := ⟨0, 0, 0, 1, 0, 0⟩ }, ⟨[], fun _ => some 0⟩⟩⟩

/-- Address map recognizing no address: the step gate is closed. -/
def appC5closed : App := ⟨0, [], ⟨machineC5, ⟨[], fun _ => none⟩⟩⟩

theorem step_snapshot_tick_gated_witness :
    (appC5'.previous_machine_state =
        appC5.previous_machine_state ++ [appC5.inner_machine_state] ∧
      Bus.tick appC5.inner_machine_state.machine =
        some appC5'.inner_machine_state.machine ∧
      appC5'.inner_machine_state.dis = appC5.inner_machine_state.dis ∧
      appC5'.memory_page_index = appC5.memory_page_index) ∧
    appC5closed = appC5closed :=
  ⟨(step_snapshot_tick_gated appC5 appC5' rfl).1 rfl,
   (step_snapshot_tick_gated appC5closed appC5closed rfl).2 rfl⟩

/-- Claim C3: after the rollback handler restores a snapshot, the processor's
bus reference resolves to the restored bus cell (not the replaced live one),
the restored bus's processor reference resolves to the restored processor
cell, and both restored cells are distinct from the live cells they
replace. -/
theorem restore_rewires_backrefs (snapshot live : RefGraph) (fresh : Nat)
    (hcpu : live.cpuId < fresh) (hbus : live.busId < fresh) :
    (restoreSnapshotRefs snapshot fresh).cpuBusRef =
      some (restoreSnapshotRefs snapshot fresh).busId ∧
    (restoreSnapshotRefs snapshot fresh).busProcRef =
      some (restoreSnapshotRefs snapshot fresh).cpuId ∧
    (restoreSnapshotRefs snapshot fresh).busId ≠ live.busId ∧
    (restoreSnapshotRefs snapshot fresh).cpuId ≠ live.cpuId := by
  refine ⟨rfl, rfl, ?_, ?_⟩ <;>
    simp only [restoreSnapshotRefs, cloneStateRefs] <;> omega

theorem restore_rewires_backrefs_witness :
    (restoreSnapshotRefs ⟨0, 1, some 1, some 0⟩ 4).cpuBusRef =
      some (restoreSnapshotRefs ⟨0, 1, some 1, some 0⟩ 4).busId ∧
    (restoreSnapshotRefs ⟨0, 1, some 1, some 0⟩ 4).busProcRef =
      some (restoreSnapshotRefs ⟨0, 1, some 1, some 0⟩ 4).cpuId ∧
    (restoreSnapshotRefs ⟨0, 1, some 1, some 0⟩ 4).busId ≠
      (⟨2, 3, some 3, some 2⟩ : RefGraph).busId ∧
    (restoreSnapshotRefs ⟨0, 1, some 1, some 0⟩ 4).cpuId ≠
      (⟨2, 3, some 3, some 2⟩ : RefGraph).cpuId :=
  restore_rewires_backrefs ⟨0, 1, some 1, some 0⟩ ⟨2, 3, some 3, some 2⟩ 4
    (by decide) (by decide)

/-- Claim C8 (counterexample): the loader does not keep exactly the
two-hex-digit tokens.  On the one-line image `"F"`, `parse_file` accepts the
single-digit token and yields `[15]`, while the two-hex-digit policy of the
claim yields `[]`. -/
theorem parse_file_two_digit_cex :
    parse_file ["F"] = [15] ∧ claimedLoaderBytes ["F"] = [] ∧
    parse_file ["F"] ≠ claimedLoaderBytes ["F"] := by
  refine ⟨?_, ?_, ?_⟩ <;> decide

lemma parseLineBytes_eq (acc : List Nat) (line : String) :
    parseLineBytes acc line =
      acc ++ (splitTokens line).filterMap fromStrRadix16U8 := by
  unfold parseLineBytes
  generalize splitTokens line = toks
  induction toks generalizing acc with
  | nil => simp
  | cons t ts ih =>
      cases h : fromStrRadix16U8 t with
      | none => simp [List.foldl_cons, h, List.filterMap_cons, ih]
      | some byte => simp [List.foldl_cons, h, List.filterMap_cons, ih]

lemma parseLineBytes_shift (acc : List Nat) (line : String) :
    parseLineBytes acc line = acc ++ parseLineBytes [] line := by
  rw [parseLineBytes_eq, parseLineBytes_eq, List.nil_append]

lemma parse_file_cons (l : String) (ls : List String) :
    parse_file (l :: ls) = parseLineBytes [] l ++ parse_file ls := by
  have shift : ∀ (ms : List String) (acc : List Nat),
      ms.foldl parseLineBytes acc = acc ++ ms.foldl parseLineBytes [] := by
    intro ms
    induction ms with
    | nil => intro acc; simp
    | cons m ms ih =>
        intro acc
        simp only [List.foldl_cons]
        rw [ih (parseLineBytes acc m), ih (parseLineBytes [] m),
          parseLineBytes_shift acc m, List.append_assoc]
  show List.foldl parseLineBytes (parseLineBytes [] l) ls = _
  rw [shift ls (parseLineBytes [] l)]
  rfl

lemma imageTokens_cons (l : String) (ls : List String) :
    imageTokens (l :: ls) = splitTokens l ++ imageTokens ls := by
  have shift : ∀ (ms : List String) (acc : List String),
      ms.foldl (fun a line => a ++ splitTokens line) acc = acc ++ imageTokens ms := by
    intro ms
    induction ms with
    | nil => intro acc; simp [imageTokens]
    | cons m ms ih =>
        intro acc
        simp only [imageTokens, List.foldl_cons, List.nil_append]
        rw [ih (acc ++ splitTokens m), ih (splitTokens m), List.append_assoc]
  simp only [imageTokens, List.foldl_cons, List.nil_append]
  rw [shift ls (splitTokens l)]
  rfl

/-- Claim C8 (amended): for every program-image text, the loader produces, in
order of appearance, exactly the bytes of those whitespace-separated tokens
accepted by base-16 unsigned-byte parsing (one or more hexadecimal digits of
either case, an optional leading plus sign, value at most 255); every
malformed token is silently skipped, and the load never fails. -/
theorem parse_file_radix16_amended (lines : List String) :
    parse_file lines = (imageTokens lines).filterMap fromStrRadix16U8 := by
  induction lines with
  | nil => rfl
  | cons l ls ih =>
      rw [parse_file_cons, imageTokens_cons, List.filterMap_append,
        parseLineBytes_eq, List.nil_append, ih]
